import Mathlib

set_option maxRecDepth 8000

/-!
Shallow embedding of the BOM tree-reconstruction and quantity-aggregation core of
the Specification_separator repository (src/excel.py, src/models.py), together with
theorems checking the natural-language specification against it.

Quantities are embedded as `Int`: the program stores them as Python floats, but every
operation the core performs on them (products and sums of per-parent amounts) is exact
integer arithmetic on the integral inputs the spec and its examples use.
-/

namespace SpecSep

/-- Python `str.lower` restricted to the alphabets the program's data uses:
ASCII letters and Russian Cyrillic (А..Я → а..я, Ё → ё). -/
def pyLowerChar (c : Char) : Char :=
  if 'A' ≤ c ∧ c ≤ 'Z' then Char.ofNat (c.toNat + 32)
  else if 'А' ≤ c ∧ c ≤ 'Я' then Char.ofNat (c.toNat + 32)
  else if c = 'Ё' then 'ё'
  else c

/-- Python `str.lower` on a string (character-wise). -/
def pyLower (s : String) : String := String.mk (s.toList.map pyLowerChar)

/-- Drop leading and trailing whitespace from a character list (Python `str.strip`). -/
def trimChars (cs : List Char) : List Char :=
  ((cs.dropWhile Char.isWhitespace).reverse.dropWhile Char.isWhitespace).reverse

/-- Python `str.strip` on a string. -/
def pyStrip (s : String) : String := String.mk (trimChars s.toList)

/-- Numeric value of a list of decimal digit characters. -/
def digitsVal (cs : List Char) : Nat := cs.foldl (fun acc c => acc * 10 + (c.toNat - 48)) 0

/-- Python `int(s)`: optional surrounding whitespace, optional sign, then one or more
decimal digits; anything else raises `ValueError`, embedded as `none`. -/
def pyInt (cs : List Char) : Option Int :=
  let t := trimChars cs
  let signed : Bool × List Char :=
    match t with
    | '-' :: rest => (true, rest)
    | '+' :: rest => (false, rest)
    | _ => (false, t)
  if signed.2 ≠ [] ∧ signed.2.all Char.isDigit then
    some (if signed.1 then -(digitsVal signed.2 : Int) else (digitsVal signed.2 : Int))
  else none

/-- Python `s.split('.')`: splits on every dot, keeping empty segments
(`"".split('.') == ['']`, `"1.".split('.') == ['1', '']`). -/
def splitOnDot : List Char → List (List Char)
  | [] => [[]]
  | c :: rest =>
    if c = '.' then [] :: splitOnDot rest
    else
      match splitOnDot rest with
      | g :: gs => (c :: g) :: gs
      | [] => [[c]]

/-- excel.py `collect_model`: `[int(number) for number in row.iloc[0].split('.')]`.
`none` embeds the `ValueError` that `int` raises on a non-numeric segment. -/
def parse_number (s : String) : Option (List Int) := (splitOnDot s.toList).mapM pyInt

/-- Exceptions of the per-row pipeline. `incorrectRow` embeds the project's
`IncorrectRow` (the only exception `work_with_rows` catches); `valueError` embeds
`ValueError` from `int()` / `float()`; `attributeError` embeds `AttributeError`
from calling `.strip()` on a NaN cell. -/
inductive PyErr where
  | incorrectRow (msg : String)
  | valueError
  | attributeError
deriving DecidableEq

/-- models.py `DetailTypes`, in declaration order. -/
inductive DetailTypes where
  | detail
  | assembly_unit
  | other
  | standard
  | material
deriving DecidableEq

/-- models.py: the string value backing each `DetailTypes` member. -/
def DetailTypes.value : DetailTypes → String
  | .detail => "детали"
  | .assembly_unit => "сборочные единицы"
  | .other => "прочие изделия"
  | .standard => "стандартные изделия"
  | .material => "материалы"

/-- The members of `DetailTypes` in models.py declaration order (the order
`for detail_type in cls` iterates them). -/
def DetailTypes.declList : List DetailTypes :=
  [.detail, .assembly_unit, .other, .standard, .material]

/-- models.py `DetailTypes.get_type`: first member whose value equals the lowered
name, else `IncorrectRow('Неизвестный тип детали ...')`. -/
def DetailTypes.get_type (type_name : String) : Except PyErr DetailTypes :=
  match DetailTypes.declList.find? (fun d => d.value == pyLower type_name) with
  | some d => .ok d
  | none => .error (.incorrectRow ("Неизвестный тип детали " ++ type_name))

/-- Modelled from the spec: `DetailTypes.assembly_unit_2`, the second textual spelling
meaning "assembly unit". excel.py's classification reads
`DetailTypes.assembly_unit_2.value`, but the member is missing from src/models.py;
the spec states the assembly category has "two distinct textual spellings both meaning
assembly unit" without fixing the second spelling, so a representative distinct
spelling is used here. -/
def assembly_unit_2_value : String := "сборочная единица"

/-- excel.py `collect_model`'s classification test:
`row.iloc[4].lower() == DetailTypes.assembly_unit.value.lower() or
 row.iloc[4].lower() == DetailTypes.assembly_unit_2.value.lower()`. -/
def is_assembly_category (cat : String) : Bool :=
  pyLower cat == pyLower DetailTypes.assembly_unit.value ||
  pyLower cat == pyLower assembly_unit_2_value

/-- The fields shared by the two record variants. models.py declares them on
`SpecificationEntity`; for `AssemblyUnit` the descriptive fields (code, work_file,
making_type, material, comment, is_order) are modelled from the spec ("same
descriptive fields as a leaf"), since src/models.py's `AssemblyUnit` dataclass is
missing the descriptive fields that excel.py's constructor call passes to it. -/
structure Fields where
  number : List Int
  name : String
  detail_type : DetailTypes
  code : Option String
  work_file : Option String
  making_type : Option String
  material : Option String
  comment : Option String
  is_order : Option String
  amount : Int
  count_in_device : Int
deriving DecidableEq

/-- The tagged union of the two record variants: `SpecificationEntity` (leaf part)
and `AssemblyUnit` (with its ordered child list). -/
inductive Model where
  | entity (f : Fields)
  | assembly (f : Fields) (components : List Model)

/-- The shared fields of either variant. -/
def Model.fields : Model → Fields
  | .entity f => f
  | .assembly f _ => f

def Model.name (m : Model) : String := m.fields.name

def Model.number (m : Model) : List Int := m.fields.number

def Model.amount (m : Model) : Int := m.fields.amount

def Model.count_in_device (m : Model) : Int := m.fields.count_in_device

/-- The record with only its `count_in_device` field replaced (the in-place
mutation `counter[name].count_in_device = ...` performs on a snapshot). -/
def Model.withCid : Model → Int → Model
  | .entity f, q => .entity { f with count_in_device := q }
  | .assembly f cs, q => .assembly { f with count_in_device := q } cs

/-- models.py `AssemblyUnit.is_detail_in_assembly`, inner loop: compare the parent's
components against the detail's, index by index over the parent's length; the loop's
`else` branch (no `break`) yields `True`. -/
def numberMatches : List Int → List Int → Bool
  | [], _ => true
  | x :: xs, y :: ys => if x ≠ y then false else numberMatches xs ys
  | _ :: _, [] => false

/-- models.py `AssemblyUnit.is_detail_in_assembly(self, detail)`:
`len(detail.number) - len(self.number) == 1` and the component-wise prefix check. -/
def is_detail_in_assembly (self_number detail_number : List Int) : Bool :=
  if (detail_number.length : Int) - (self_number.length : Int) = 1 then
    numberMatches self_number detail_number
  else false

/-- excel.py `self.counter_unique_models`: a Python dict keyed by part name,
embedded as an insertion-ordered association list. -/
abbrev Counter := List (String × Model)

/-- Python `dict.get(k)`: the value stored under the key, if any. -/
def dictGet : Counter → String → Option Model
  | [], _ => none
  | (k', v') :: rest, k => if k' == k then some v' else dictGet rest k

/-- Python `d[k] = v`: replace in place when the key exists, else append. -/
def dictSet (d : Counter) (k : String) (v : Model) : Counter :=
  match d with
  | [] => [(k, v)]
  | (k', v') :: rest => if k' == k then (k, v) :: rest else (k', v') :: dictSet rest k v

/-- excel.py `find_assembly`, lines 423..427: on a successful attachment with
contribution `component.count_in_device * amount_upper * model.amount`, either insert
a deepcopy of the model with `count_in_device` set to the contribution, or add the
contribution to the existing entry's `count_in_device`. -/
def counterUpdate (counter : Counter) (model : Model) (contribution : Int) : Counter :=
  match dictGet counter model.name with
  | none => dictSet counter model.name (model.withCid contribution)
  | some old => dictSet counter model.name (old.withCid (old.count_in_device + contribution))

mutual

/-- excel.py `ExcelInput.find_assembly(models_collection, model, amount_upper)`:
the `for component in models_collection` loop. Returns the (possibly extended)
collection, the (possibly updated) counter dict, and the found flag; on `False`
nothing was mutated, so the inputs are returned unchanged. -/
def find_assembly (counter : Counter) (models_collection : List Model) (model : Model)
    (amount_upper : Int) : List Model × Counter × Bool :=
  match models_collection with
  | [] => ([], counter, false)
  | component :: rest =>
    match find_assembly_component counter component model amount_upper with
    | (component', counter', true) => (component' :: rest, counter', true)
    | (_, _, false) =>
      match find_assembly counter rest model amount_upper with
      | (rest', counter', true) => (component :: rest', counter', true)
      | (_, _, false) => (component :: rest, counter, false)

/-- One iteration of the `find_assembly` loop body: non-assemblies are skipped
(`isinstance` check); an assembly either directly contains the model
(append to its child list, update the counter) or is searched recursively with
`amount_upper = component.count_in_device`. -/
def find_assembly_component (counter : Counter) (component : Model) (model : Model)
    (amount_upper : Int) : Model × Counter × Bool :=
  match component with
  | .entity f => (.entity f, counter, false)
  | .assembly f comps =>
    if is_detail_in_assembly f.number model.number then
      (.assembly f (comps ++ [model]),
       counterUpdate counter model (f.count_in_device * amount_upper * model.amount),
       true)
    else
      match find_assembly counter comps model f.count_in_device with
      | (comps', counter', true) => (.assembly f comps', counter', true)
      | (_, _, false) => (.assembly f comps, counter, false)

end

mutual

/-- Number of records in one tree. -/
def modelSize : Model → Nat
  | .entity _ => 1
  | .assembly _ comps => 1 + forestSize comps

/-- Total number of records in a forest. -/
def forestSize : List Model → Nat
  | [] => 0
  | m :: rest => modelSize m + forestSize rest

end

mutual

/-- The contributed quantity `find_assembly` records when it attaches the model:
the same traversal in the same order, returning
`component.count_in_device * amount_upper * model.amount` for the first assembly
found to contain the model, and `none` when the search fails. Used to state what
the counter update adds. -/
def attach_contribution (models_collection : List Model) (model : Model)
    (amount_upper : Int) : Option Int :=
  match models_collection with
  | [] => none
  | component :: rest =>
    match attach_contribution_component component model amount_upper with
    | some q => some q
    | none => attach_contribution rest model amount_upper

/-- One iteration of the `attach_contribution` loop body, mirroring
`find_assembly_component`. -/
def attach_contribution_component (component : Model) (model : Model)
    (amount_upper : Int) : Option Int :=
  match component with
  | .entity _ => none
  | .assembly f comps =>
    if is_detail_in_assembly f.number model.number then
      some (f.count_in_device * amount_upper * model.amount)
    else attach_contribution comps model f.count_in_device

end

/-- A sanitized input row as `collect_model` receives it (cell indices 0..9 of the
required columns, in order). `none` is a NaN cell. `position` is already a string
(`astype(str)`). `amount` holds the value `float(cell)` yields when it succeeds;
`none` embeds a cell on which `float` raises `ValueError`. -/
structure Row where
  position : String
  name : Option String
  code : Option String
  work_file : Option String
  category : Option String
  making_type : Option String
  material : Option String
  is_order : Option String
  comment : Option String
  amount : Option Int
deriving DecidableEq

/-- excel.py `check_row_number` (called from `fix_row` before `collect_model`):
`row.iloc[0] = row.iloc[0].replace(',', '.')`. -/
def check_row_number (row : Row) : Row :=
  { row with position := String.mk (row.position.toList.map (fun c => if c = ',' then '.' else c)) }

/-- excel.py `ExcelInput.collect_model`, construction part: check the category cell,
classify by the assembly synonym test, and build the record. The error cases mirror
Python's evaluation order of the constructor arguments: for `AssemblyUnit` the order
is number, components, amount, name, ...; for `SpecificationEntity` it is number,
name, detail_type (`DetailTypes.get_type`), ..., amount. `int` and `float` failures
raise `ValueError`, `.strip()` on NaN raises `AttributeError`, and only the missing
or unknown category raises `IncorrectRow`. -/
def build_model (row : Row) : Except PyErr Model :=
  match row.category with
  | none => .error (.incorrectRow "Не указан тип детали")
  | some cat =>
    if is_assembly_category cat then
      match parse_number row.position with
      | none => .error .valueError
      | some number =>
        match row.amount with
        | none => .error .valueError
        | some amount =>
          match row.name with
          | none => .error .attributeError
          | some nm =>
            .ok (.assembly
              ⟨number, pyStrip nm, .assembly_unit, row.code, row.work_file,
               row.making_type, row.material, row.comment, row.is_order,
               amount, amount⟩ [])
    else
      match parse_number row.position with
      | none => .error .valueError
      | some number =>
        match row.name with
        | none => .error .attributeError
        | some nm =>
          match DetailTypes.get_type cat with
          | .error e => .error e
          | .ok dt =>
            match row.amount with
            | none => .error .valueError
            | some amount =>
              .ok (.entity
                ⟨number, pyStrip nm, dt, row.code, row.work_file,
                 row.making_type, row.material, row.comment, row.is_order,
                 amount, amount⟩)

/-- The mutable state `collect_model` works on: `self.models` (the forest of
top-level records) and `self.counter_unique_models` (the aggregation dict). -/
structure InputState where
  models : List Model
  counter : Counter

/-- excel.py `ExcelInput.collect_model`, attachment part: search the forest with
`amount_upper = 1`; if nothing matched, append the record as a new top-level root
and store a deepcopy of it under its name (a plain dict assignment). -/
def collect_model (st : InputState) (row : Row) : Except PyErr InputState :=
  match build_model row with
  | .error e => .error e
  | .ok model =>
    match find_assembly st.counter st.models model 1 with
    | (models', counter', true) => .ok ⟨models', counter'⟩
    | (_, _, false) => .ok ⟨st.models ++ [model], dictSet st.counter model.name model⟩

/-- excel.py `ExcelInput.work_with_rows`, the per-row loop from a given state:
`fix_row` (position sanitization) then `collect_model`, catching only
`IncorrectRow` (log and `continue`); any other exception propagates and aborts
the file. -/
def work_with_rows_from (st : InputState) : List Row → Except PyErr InputState
  | [] => .ok st
  | row :: rest =>
    match collect_model st (check_row_number row) with
    | .ok st' => work_with_rows_from st' rest
    | .error (.incorrectRow _) => work_with_rows_from st rest
    | .error e => .error e

/-- The whole per-file run, starting from the fresh state (`clear_content`). -/
def work_with_rows (rows : List Row) : Except PyErr InputState :=
  work_with_rows_from ⟨[], []⟩ rows

/-- Whether an `Except` result is a success. -/
def exceptOk : Except PyErr DetailTypes → Bool
  | .ok _ => true
  | .error _ => false

/-- Characterization of the rows `collect_model` processes without raising:
category present, parseable position, present name, parseable amount, and a
category that is either an assembly synonym or in the closed vocabulary. -/
def rowOk (r : Row) : Bool :=
  match r.category with
  | none => false
  | some cat =>
    (parse_number r.position).isSome && r.name.isSome && r.amount.isSome &&
    (is_assembly_category cat || exceptOk (DetailTypes.get_type cat))

/-- The name under which a valid row's record is stored (`row.iloc[1].strip()`). -/
def rowName (r : Row) : String := pyStrip (r.name.getD "")

/-- The `count_in_device` recorded in the aggregation dict for a name, if the run
succeeded and the name is present. -/
def counterCid (res : Except PyErr InputState) (n : String) : Option Int :=
  match res with
  | .ok st => (dictGet st.counter n).map Model.count_in_device
  | .error _ => none

/-- The final state of a successful run (fresh state if the run aborted). -/
def stateOf (res : Except PyErr InputState) : InputState :=
  match res with
  | .ok st => st
  | .error _ => ⟨[], []⟩

/-- One row of the absolute sheet: the record's fields after
`drop(columns=['number', 'components', 'amount'])`, with `detail_type` mapped to its
string value, in the column order excel.py writes. -/
structure ReportRow where
  name : String
  code : Option String
  work_file : Option String
  detail_type : String
  making_type : Option String
  material : Option String
  is_order : Option String
  count_in_device : Int
  comment : Option String
deriving DecidableEq

/-- A record's absolute-sheet row. -/
def Model.toReportRow (m : Model) : ReportRow :=
  ⟨m.fields.name, m.fields.code, m.fields.work_file, m.fields.detail_type.value,
   m.fields.making_type, m.fields.material, m.fields.is_order,
   m.fields.count_in_device, m.fields.comment⟩

/-- Python string `<`: lexicographic comparison of the code points, a strict prefix
being smaller. -/
def charListLt : List Char → List Char → Bool
  | [], [] => false
  | [], _ :: _ => true
  | _ :: _, [] => false
  | x :: xs, y :: ys => x.toNat < y.toNat || (x.toNat == y.toNat && charListLt xs ys)

/-- The ordering `sort_values(by=['detail_type', 'name'])` sorts the report rows by:
the pair (category value string, name string), compared lexicographically with
Python string comparison. -/
def reportLeB (a b : ReportRow) : Bool :=
  charListLt a.detail_type.toList b.detail_type.toList ||
  (a.detail_type == b.detail_type &&
    (charListLt a.name.toList b.name.toList || a.name == b.name))

/-- `reportLeB` as a relation. -/
def reportOrder (a b : ReportRow) : Prop := reportLeB a b = true

instance : DecidableRel reportOrder := fun a b => instDecidableEqBool (reportLeB a b) true

/-- excel.py `ExcelOutput.create_absolute_sheet`: one row per aggregation-dict entry,
structural columns dropped, `detail_type` mapped to its value, sorted by
(detail_type, name). -/
def create_absolute_sheet (details : Counter) : List ReportRow :=
  List.insertionSort reportOrder (details.map (fun p => Model.toReportRow p.2))

/-- The position of a `DetailTypes` member in models.py's declaration order
(the order the spec's sentence "by the fixed category enumeration order" names). -/
def declarationIndex : DetailTypes → Nat
  | .detail => 0
  | .assembly_unit => 1
  | .other => 2
  | .standard => 3
  | .material => 4

/-- Declaration-order index of a category value string (vocabulary length for a
string that is no member's value). -/
def declIdxOfValue (s : String) : Nat :=
  match DetailTypes.declList.findIdx? (fun d => d.value == s) with
  | some i => i
  | none => DetailTypes.declList.length

/-- From the spec's words: the row has a potential parent among the input rows —
some row of the set classifies as an assembly and its parsed position is the
immediate parent of this row's parsed position. -/
def row_has_parent_in_set (rows : List Row) (r : Row) : Bool :=
  match parse_number (check_row_number r).position with
  | none => false
  | some path =>
    rows.any (fun r' =>
      (match r'.category with
       | some c => is_assembly_category c
       | none => false) &&
      (match parse_number (check_row_number r').position with
       | some p' => is_detail_in_assembly p' path
       | none => false))

/-- From the spec's words, helper: simulate the run and require that every row with
a potential parent among the input rows actually attaches at the moment it is
processed (its parent is "already resolvable in the forest"), all rows valid. -/
def topologically_valid_from (all : List Row) (st : InputState) : List Row → Bool
  | [] => true
  | r :: rest =>
    match build_model (check_row_number r) with
    | .error _ => false
    | .ok m =>
      match find_assembly st.counter st.models m 1 with
      | (models', counter', true) => topologically_valid_from all ⟨models', counter'⟩ rest
      | (_, _, false) =>
        if row_has_parent_in_set all r then false
        else topologically_valid_from all ⟨st.models ++ [m], dictSet st.counter m.name m⟩ rest

/-- From the spec's words: a topologically valid input order. -/
def topologically_valid (rows : List Row) : Bool :=
  topologically_valid_from rows ⟨[], []⟩ rows

/-- A shorthand for building test rows: position, name, category, amount given,
free-text cells blank. -/
def testRow (pos nm cat : String) (amt : Int) : Row :=
  ⟨pos, some nm, none, none, some cat, none, none, none, none, some amt⟩

/-- A three-level chain: device, an assembly used 3 times in it, a leaf used
5 times in the assembly (the spec's quantity-propagation example). -/
def chain3 : List Row :=
  [testRow "1" "Device" "сборочные единицы" 1,
   testRow "1.1" "Asm" "сборочные единицы" 3,
   testRow "1.1.1" "Leaf" "детали" 5]

/-- A four-level chain of nested assemblies with a leaf at the bottom; the product
of the amounts along the leaf's path is 2 * 3 * 5 * 7 = 210. -/
def chain4 : List Row :=
  [testRow "1" "Root" "сборочные единицы" 2,
   testRow "1.1" "Sub" "сборочные единицы" 3,
   testRow "1.1.1" "SubSub" "сборочные единицы" 5,
   testRow "1.1.1.1" "Bolt" "детали" 7]

/-- Two valid leaf rows with the same name, both promoted to top-level roots. -/
def dupNameRows : List Row :=
  [testRow "1" "X" "детали" 2, testRow "2" "X" "детали" 4]

/-- A row whose position text is not a dotted integer path. -/
def badPosRow : Row := testRow "1.X" "B" "детали" 1

/-- A well-formed leaf row. -/
def goodRow : Row := testRow "2" "G" "детали" 1

/-- An assembly row, a leaf attached under it, and a same-named root leaf. -/
def ordA : List Row :=
  [testRow "1" "A" "сборочные единицы" 1,
   testRow "1.1" "X" "детали" 2,
   testRow "2" "X" "детали" 3]

/-- The same multiset of rows as `ordA`, with the two X rows swapped; still
topologically valid (the attached X still arrives after its parent A). -/
def ordB : List Row :=
  [testRow "1" "A" "сборочные единицы" 1,
   testRow "2" "X" "детали" 3,
   testRow "1.1" "X" "детали" 2]

/-- Two distinct valid root rows, in two orders. -/
def permRows1 : List Row := [testRow "1" "P" "детали" 1, testRow "2" "Q" "детали" 2]

/-- The rows of `permRows1`, swapped. -/
def permRows2 : List Row := [testRow "2" "Q" "детали" 2, testRow "1" "P" "детали" 1]

/-- Four rows: an assembly, a leaf inside it, an unmatched leaf (new root), and a
row with an unknown category (skipped). -/
def mixedRows : List Row :=
  [testRow "1" "A" "сборочные единицы" 1,
   testRow "1.1" "B" "детали" 2,
   testRow "5.5" "C" "детали" 1,
   testRow "2" "D" "чепуха" 1]

/-- An aggregation dict with a material item and an assembly: declaration order
puts the assembly category first, value-string order puts "материалы" first. -/
def dEx : Counter :=
  [("MatA", .entity ⟨[1], "MatA", .material, none, none, none, none, none, none, 1, 1⟩),
   ("AsmB", .assembly ⟨[2], "AsmB", .assembly_unit, none, none, none, none, none, none, 1, 1⟩ [])]

/-- A top-level assembly with position [1] and count_in_device 1. -/
def asmA : Model :=
  .assembly ⟨[1], "A", .assembly_unit, none, none, none, none, none, none, 1, 1⟩ []

/-- An aggregation-dict snapshot for name X with count_in_device 2 and some
descriptive fields set. -/
def oldX : Model :=
  .entity ⟨[9], "X", .detail, some "код", some "file", some "литьё", some "сталь",
           some "прим", some "нет", 2, 2⟩

/-- A record named X with amount 5, an immediate child of position [1]. -/
def newX : Model :=
  .entity ⟨[1, 1], "X", .standard, none, none, none, none, none, none, 5, 5⟩

/-- A leaf row whose amount cell does not parse as a float. -/
def badAmountRow : Row :=
  ⟨"1", some "B", none, none, some "детали", none, none, none, none, none⟩

/-- A leaf row with a capitalized category spelling. -/
def capCatRow : Row := testRow "3" "Bolt" "Детали" 2

/-- A state with one top-level assembly and an existing counter entry for X. -/
def c3st : InputState := ⟨[asmA], [("X", oldX)]⟩

/-- A row named X that attaches under `asmA`. -/
def c3row : Row := testRow "1.1" "X" "детали" 5

/-- The record `build_model` constructs from `c3row`. -/
def c3m : Model :=
  .entity ⟨[1, 1], "X", .detail, none, none, none, none, none, none, 5, 5⟩

/-- Two same-named leaves with amounts 2 and 4, attached under two different
assemblies each with count-in-device 1 (the duplicate-name summation example). -/
def sumExampleRows : List Row :=
  [testRow "1" "A1" "сборочные единицы" 1,
   testRow "2" "A2" "сборочные единицы" 1,
   testRow "1.1" "X" "детали" 2,
   testRow "2.1" "X" "детали" 4]

/-! Helper lemmas. -/

/-- Characters with equal code points are equal. -/
theorem char_eq_of_toNat_eq {a b : Char} (h : a.toNat = b.toNat) : a = b := by
  have hv : a.val = b.val := by
    apply UInt32.eq_of_toBitVec_eq
    apply BitVec.eq_of_toNat_eq
    simpa [Char.toNat, UInt32.toNat] using h
  exact Char.eq_of_val_eq hv

/-- The character-list order is transitive. -/
theorem charListLt_trans : ∀ (a b c : List Char),
    charListLt a b = true → charListLt b c = true → charListLt a c = true := by
  intro a
  induction a with
  | nil =>
    intro b c hab hbc
    cases b with
    | nil => simp [charListLt] at hab
    | cons y ys =>
      cases c with
      | nil => simp [charListLt] at hbc
      | cons z zs => simp [charListLt]
  | cons x xs ih =>
    intro b c hab hbc
    cases b with
    | nil => simp [charListLt] at hab
    | cons y ys =>
      cases c with
      | nil => simp [charListLt] at hbc
      | cons z zs =>
        simp only [charListLt, Bool.or_eq_true, Bool.and_eq_true, beq_iff_eq,
          decide_eq_true_eq] at hab hbc ⊢
        rcases hab with h1 | ⟨he1, hr1⟩
        · rcases hbc with h2 | ⟨he2, hr2⟩
          · exact Or.inl (Nat.lt_trans h1 h2)
          · exact Or.inl (he2 ▸ h1)
        · rcases hbc with h2 | ⟨he2, hr2⟩
          · exact Or.inl (he1 ▸ h2)
          · exact Or.inr ⟨he1.trans he2, ih ys zs hr1 hr2⟩

/-- Two character lists neither of which is below the other are equal. -/
theorem charListLt_eq_of_not : ∀ (a b : List Char),
    charListLt a b = false → charListLt b a = false → a = b := by
  intro a
  induction a with
  | nil =>
    intro b hab _
    cases b with
    | nil => rfl
    | cons y ys => simp [charListLt] at hab
  | cons x xs ih =>
    intro b hab hba
    cases b with
    | nil => simp [charListLt] at hba
    | cons y ys =>
      simp only [charListLt, Bool.or_eq_false_iff, Bool.and_eq_false_iff, beq_eq_false_iff_ne,
        ne_eq, decide_eq_false_iff_not, Nat.not_lt, beq_iff_eq] at hab hba
      obtain ⟨hxy, hab2⟩ := hab
      obtain ⟨hyx, hba2⟩ := hba
      have heq : x.toNat = y.toNat := Nat.le_antisymm hyx hxy
      have hx : x = y := char_eq_of_toNat_eq heq
      subst hx
      have hxs : xs = ys := by
        rcases hab2 with h | h
        · exact absurd heq h
        · rcases hba2 with h' | h'
          · exact absurd heq.symm h'
          · exact ih ys h h'
      rw [hxs]

/-- Strings neither of which is below the other are equal. -/
theorem string_eq_of_not_lt {a b : String}
    (h1 : charListLt a.toList b.toList = false) (h2 : charListLt b.toList a.toList = false) :
    a = b :=
  String.ext (charListLt_eq_of_not a.toList b.toList h1 h2)

/-- The report-row order is total. -/
theorem reportOrder_total : ∀ a b : ReportRow, reportOrder a b ∨ reportOrder b a := by
  intro a b
  unfold reportOrder reportLeB
  cases hdt : charListLt a.detail_type.toList b.detail_type.toList with
  | true => exact Or.inl (by simp [hdt])
  | false =>
    cases hdt' : charListLt b.detail_type.toList a.detail_type.toList with
    | true => exact Or.inr (by simp [hdt'])
    | false =>
      have hd : a.detail_type = b.detail_type := string_eq_of_not_lt hdt hdt'
      cases hnm : charListLt a.name.toList b.name.toList with
      | true => exact Or.inl (by simp [hdt, hd, hnm])
      | false =>
        cases hnm' : charListLt b.name.toList a.name.toList with
        | true => exact Or.inr (by simp [hdt', hd, hnm'])
        | false =>
          have hn : a.name = b.name := string_eq_of_not_lt hnm hnm'
          exact Or.inl (by simp [hdt, hd, hn])

/-- The report-row order is transitive. -/
theorem reportOrder_trans : ∀ a b c : ReportRow,
    reportOrder a b → reportOrder b c → reportOrder a c := by
  intro a b c hab hbc
  unfold reportOrder reportLeB at hab hbc ⊢
  simp only [Bool.or_eq_true, Bool.and_eq_true, beq_iff_eq] at hab hbc ⊢
  rcases hab with h1 | ⟨he1, hn1⟩
  · rcases hbc with h2 | ⟨he2, hn2⟩
    · exact Or.inl (charListLt_trans _ _ _ h1 h2)
    · exact Or.inl (he2 ▸ h1)
  · rcases hbc with h2 | ⟨he2, hn2⟩
    · exact Or.inl (he1 ▸ h2)
    · refine Or.inr ⟨he1.trans he2, ?_⟩
      rcases hn1 with h1' | h1'
      · rcases hn2 with h2' | h2'
        · exact Or.inl (charListLt_trans _ _ _ h1' h2')
        · exact Or.inl (h2' ▸ h1')
      · rcases hn2 with h2' | h2'
        · exact Or.inl (h1' ▸ h2')
        · exact Or.inr (h1'.trans h2')

/-- Looking up the key just set yields the new value. -/
theorem dictGet_dictSet_self : ∀ (d : Counter) (k : String) (v : Model),
    dictGet (dictSet d k v) k = some v := by
  intro d k v
  induction d with
  | nil => simp [dictGet, dictSet]
  | cons p rest ih =>
    obtain ⟨k', v'⟩ := p
    by_cases h : k' = k
    · subst h; simp [dictSet, dictGet]
    · simp [dictSet, dictGet, h, ih]

/-- Looking up another key is unaffected by a set. -/
theorem dictGet_dictSet_ne : ∀ (d : Counter) (k : String) (v : Model) (n : String),
    n ≠ k → dictGet (dictSet d k v) n = dictGet d n := by
  intro d k v n hne
  induction d with
  | nil => simp [dictGet, dictSet, Ne.symm hne]
  | cons p rest ih =>
    obtain ⟨k', v'⟩ := p
    by_cases h : k' = k
    · subst h; simp [dictSet, dictGet, Ne.symm hne]
    · by_cases h2 : k' = n
      · subst h2; simp [dictSet, dictGet, h]
      · simp [dictSet, dictGet, h, h2, ih]

/-- A key is present after a set iff it is the set key or was present before. -/
theorem isSome_dictGet_dictSet (d : Counter) (k : String) (v : Model) (n : String) :
    (dictGet (dictSet d k v) n).isSome = true ↔ (n = k ∨ (dictGet d n).isSome = true) := by
  by_cases h : n = k
  · subst h; simp [dictGet_dictSet_self]
  · rw [dictGet_dictSet_ne d k v n h]
    simp [h]

/-- Key membership after a set. -/
theorem mem_keys_dictSet : ∀ (d : Counter) (k : String) (v : Model) (n : String),
    n ∈ (dictSet d k v).map Prod.fst ↔ (n = k ∨ n ∈ d.map Prod.fst) := by
  intro d k v n
  induction d with
  | nil => simp [dictSet]
  | cons p rest ih =>
    obtain ⟨k', v'⟩ := p
    by_cases h : k' = k
    · subst h; simp [dictSet]
    · simp only [dictSet, beq_iff_eq, h, if_false, List.map_cons, List.mem_cons, ih]
      tauto

/-- A set preserves distinctness of the keys. -/
theorem nodup_keys_dictSet : ∀ (d : Counter) (k : String) (v : Model),
    (d.map Prod.fst).Nodup → ((dictSet d k v).map Prod.fst).Nodup := by
  intro d k v h
  induction d with
  | nil => simp [dictSet]
  | cons p rest ih =>
    obtain ⟨k', v'⟩ := p
    simp only [List.map_cons, List.nodup_cons] at h
    obtain ⟨hnotin, hrest⟩ := h
    by_cases hk : k' = k
    · subst hk; simp [dictSet, hnotin, hrest]
    · simp only [dictSet, beq_iff_eq, hk, if_false, List.map_cons, List.nodup_cons]
      refine ⟨?_, ih hrest⟩
      rw [mem_keys_dictSet]
      push_neg
      exact ⟨hk, hnotin⟩

/-- The membership form of the dict lookup. -/
theorem isSome_dictGet_iff_mem_keys : ∀ (d : Counter) (n : String),
    (dictGet d n).isSome = true ↔ n ∈ d.map Prod.fst := by
  intro d n
  induction d with
  | nil => simp [dictGet]
  | cons p rest ih =>
    obtain ⟨k', v'⟩ := p
    by_cases h : k' = n
    · subst h; simp [dictGet]
    · simp [dictGet, h, ih, Ne.symm h]

/-- The counter update is a single set of the model's name. -/
theorem counterUpdate_as_dictSet (c : Counter) (m : Model) (q : Int) :
    ∃ v, counterUpdate c m q = dictSet c m.name v := by
  unfold counterUpdate
  cases h : dictGet c m.name
  · exact ⟨_, rfl⟩
  · exact ⟨_, rfl⟩

/-- Forest size distributes over append. -/
theorem forestSize_append : ∀ (xs ys : List Model),
    forestSize (xs ++ ys) = forestSize xs + forestSize ys := by
  intro xs ys
  induction xs with
  | nil => simp [forestSize]
  | cons m rest ih => simp [forestSize, ih]; omega

/-- A successful forest search updates the counter by exactly one `counterUpdate`
of the attached model's name and grows the forest by exactly the model. -/
theorem find_assembly_found_spec (counter : Counter) (ms : List Model) (model : Model)
    (u : Int) :
    ∀ ms' c', find_assembly counter ms model u = (ms', c', true) →
      (∃ q : Int, c' = counterUpdate counter model q) ∧
      forestSize ms' = forestSize ms + modelSize model := by
  refine find_assembly.induct counter
    (fun ms model u => ∀ ms' c', find_assembly counter ms model u = (ms', c', true) →
      (∃ q : Int, c' = counterUpdate counter model q) ∧
      forestSize ms' = forestSize ms + modelSize model)
    (fun comp model u => ∀ comp' c',
      find_assembly_component counter comp model u = (comp', c', true) →
      (∃ q : Int, c' = counterUpdate counter model q) ∧
      modelSize comp' = modelSize comp + modelSize model)
    ?_ ?_ ?_ ?_ ?_ ?_ ?_ ?_ ms model u
  · intro model u f comp' c' h
    have hval : find_assembly_component counter (.entity f) model u = (.entity f, counter, false) := by
      simp [find_assembly_component]
    rw [hval] at h
    simp at h
  · intro model u f comps hmatch comp' c' h
    have hval : find_assembly_component counter (.assembly f comps) model u =
        (.assembly f (comps ++ [model]),
         counterUpdate counter model (f.count_in_device * u * model.amount), true) := by
      simp [find_assembly_component, hmatch]
    rw [hval] at h
    simp only [Prod.mk.injEq, and_true] at h
    obtain ⟨h1, h2⟩ := h
    subst h1; subst h2
    refine ⟨⟨f.count_in_device * u * model.amount, rfl⟩, ?_⟩
    simp only [modelSize, forestSize_append, forestSize]
    omega
  · intro model u f comps hmatch rest' counter' hinner ih comp' c' h
    have hval : find_assembly_component counter (.assembly f comps) model u =
        (.assembly f rest', counter', true) := by
      simp [find_assembly_component, hmatch, hinner]
    rw [hval] at h
    simp only [Prod.mk.injEq, and_true] at h
    obtain ⟨h1, h2⟩ := h
    subst h1; subst h2
    obtain ⟨hq, hsize⟩ := ih rest' counter' hinner
    refine ⟨hq, ?_⟩
    simp only [modelSize] at hsize ⊢
    omega
  · intro model u f comps hmatch fst fst1 hinner ih comp' c' h
    have hval : find_assembly_component counter (.assembly f comps) model u =
        (.assembly f comps, counter, false) := by
      simp [find_assembly_component, hmatch, hinner]
    rw [hval] at h
    simp at h
  · intro model u ms' c' h
    simp [find_assembly] at h
  · intro model u component rest component' counterX hcomp ih ms' c' h
    have hval : find_assembly counter (component :: rest) model u =
        (component' :: rest, counterX, true) := by
      simp [find_assembly, hcomp]
    rw [hval] at h
    simp only [Prod.mk.injEq, and_true] at h
    obtain ⟨h1, h2⟩ := h
    subst h1; subst h2
    obtain ⟨hq, hsize⟩ := ih component' counterX hcomp
    refine ⟨hq, ?_⟩
    simp only [forestSize]
    omega
  · intro model u component rest fst fst1 hcomp rest' counter' hrest ihc ihr ms' c' h
    have hval : find_assembly counter (component :: rest) model u =
        (component :: rest', counter', true) := by
      simp [find_assembly, hcomp, hrest]
    rw [hval] at h
    simp only [Prod.mk.injEq, and_true] at h
    obtain ⟨h1, h2⟩ := h
    subst h1; subst h2
    obtain ⟨hq, hsize⟩ := ihr rest' counter' hrest
    refine ⟨hq, ?_⟩
    simp only [forestSize] at hsize ⊢
    omega
  · intro model u component rest fst fst1 hcomp fst2 fst3 hrest ihc ihr ms' c' h
    have hval : find_assembly counter (component :: rest) model u =
        (component :: rest, counter, false) := by
      simp [find_assembly, hcomp, hrest]
    rw [hval] at h
    simp at h

/-- The counter update of a successful search adds exactly the contribution
`attach_contribution` names for the found parent; a failed search has no
contribution. -/
theorem find_assembly_contribution_spec (counter : Counter) (ms : List Model)
    (model : Model) (u : Int) :
    (∀ ms' c', find_assembly counter ms model u = (ms', c', true) →
      ∃ q : Int, attach_contribution ms model u = some q ∧
        c' = counterUpdate counter model q) ∧
    (∀ ms' c', find_assembly counter ms model u = (ms', c', false) →
      attach_contribution ms model u = none) := by
  refine find_assembly.induct counter
    (fun ms model u =>
      (∀ ms' c', find_assembly counter ms model u = (ms', c', true) →
        ∃ q : Int, attach_contribution ms model u = some q ∧
          c' = counterUpdate counter model q) ∧
      (∀ ms' c', find_assembly counter ms model u = (ms', c', false) →
        attach_contribution ms model u = none))
    (fun comp model u =>
      (∀ comp' c', find_assembly_component counter comp model u = (comp', c', true) →
        ∃ q : Int, attach_contribution_component comp model u = some q ∧
          c' = counterUpdate counter model q) ∧
      (∀ comp' c', find_assembly_component counter comp model u = (comp', c', false) →
        attach_contribution_component comp model u = none))
    ?_ ?_ ?_ ?_ ?_ ?_ ?_ ?_ ms model u
  · intro model u f
    have hval : find_assembly_component counter (.entity f) model u =
        (.entity f, counter, false) := by
      simp [find_assembly_component]
    constructor
    · intro comp' c' h
      rw [hval] at h
      simp at h
    · intro comp' c' h
      simp [attach_contribution_component]
  · intro model u f comps hmatch
    have hval : find_assembly_component counter (.assembly f comps) model u =
        (.assembly f (comps ++ [model]),
         counterUpdate counter model (f.count_in_device * u * model.amount), true) := by
      simp [find_assembly_component, hmatch]
    constructor
    · intro comp' c' h
      rw [hval] at h
      simp only [Prod.mk.injEq, and_true] at h
      obtain ⟨h1, h2⟩ := h
      subst h1; subst h2
      exact ⟨f.count_in_device * u * model.amount,
        by simp [attach_contribution_component, hmatch], rfl⟩
    · intro comp' c' h
      rw [hval] at h
      simp at h
  · intro model u f comps hmatch rest' counter' hinner ih
    have hval : find_assembly_component counter (.assembly f comps) model u =
        (.assembly f rest', counter', true) := by
      simp [find_assembly_component, hmatch, hinner]
    constructor
    · intro comp' c' h
      rw [hval] at h
      simp only [Prod.mk.injEq, and_true] at h
      obtain ⟨h1, h2⟩ := h
      subst h1; subst h2
      obtain ⟨q, hq1, hq2⟩ := ih.1 rest' counter' hinner
      exact ⟨q, by simp [attach_contribution_component, hmatch, hq1], hq2⟩
    · intro comp' c' h
      rw [hval] at h
      simp at h
  · intro model u f comps hmatch fst fst1 hinner ih
    have hval : find_assembly_component counter (.assembly f comps) model u =
        (.assembly f comps, counter, false) := by
      simp [find_assembly_component, hmatch, hinner]
    constructor
    · intro comp' c' h
      rw [hval] at h
      simp at h
    · intro comp' c' h
      have hnone := ih.2 fst fst1 hinner
      simp [attach_contribution_component, hmatch, hnone]
  · intro model u
    constructor
    · intro ms' c' h
      simp [find_assembly] at h
    · intro ms' c' h
      simp [attach_contribution]
  · intro model u component rest component' counterX hcomp ih
    have hval : find_assembly counter (component :: rest) model u =
        (component' :: rest, counterX, true) := by
      simp [find_assembly, hcomp]
    constructor
    · intro ms' c' h
      rw [hval] at h
      simp only [Prod.mk.injEq, and_true] at h
      obtain ⟨h1, h2⟩ := h
      subst h1; subst h2
      obtain ⟨q, hq1, hq2⟩ := ih.1 component' counterX hcomp
      exact ⟨q, by simp [attach_contribution, hq1], hq2⟩
    · intro ms' c' h
      rw [hval] at h
      simp at h
  · intro model u component rest fst fst1 hcomp rest' counter' hrest ihc ihr
    have hval : find_assembly counter (component :: rest) model u =
        (component :: rest', counter', true) := by
      simp [find_assembly, hcomp, hrest]
    constructor
    · intro ms' c' h
      rw [hval] at h
      simp only [Prod.mk.injEq, and_true] at h
      obtain ⟨h1, h2⟩ := h
      subst h1; subst h2
      have hnone := ihc.2 fst fst1 hcomp
      obtain ⟨q, hq1, hq2⟩ := ihr.1 rest' counter' hrest
      exact ⟨q, by simp [attach_contribution, hnone, hq1], hq2⟩
    · intro ms' c' h
      rw [hval] at h
      simp at h
  · intro model u component rest fst fst1 hcomp fst2 fst3 hrest ihc ihr
    have hval : find_assembly counter (component :: rest) model u =
        (component :: rest, counter, false) := by
      simp [find_assembly, hcomp, hrest]
    constructor
    · intro ms' c' h
      rw [hval] at h
      simp at h
    · intro ms' c' h
      have hnone := ihc.2 fst fst1 hcomp
      have hnone2 := ihr.2 fst2 fst3 hrest
      simp [attach_contribution, hnone, hnone2]

/-- A failed forest search leaves forest and counter unchanged. -/
theorem find_assembly_not_found_frame (counter : Counter) (ms : List Model) (model : Model)
    (u : Int) :
    ∀ ms' c', find_assembly counter ms model u = (ms', c', false) →
      ms' = ms ∧ c' = counter := by
  intro ms' c' h
  cases ms with
  | nil =>
    simp only [find_assembly, Prod.mk.injEq] at h
    exact ⟨h.1.symm, h.2.1.symm⟩
  | cons component rest =>
    simp only [find_assembly] at h
    cases hcomp : find_assembly_component counter component model u with
    | mk comp' p =>
      obtain ⟨cX, b⟩ := p
      cases b with
      | true => rw [hcomp] at h; simp at h
      | false =>
        rw [hcomp] at h
        cases hrest : find_assembly counter rest model u with
        | mk rest' p2 =>
          obtain ⟨cY, b2⟩ := p2
          cases b2 with
          | true => rw [hrest] at h; simp at h
          | false =>
            rw [hrest] at h
            simp only [Prod.mk.injEq] at h
            exact ⟨h.1.symm, h.2.1.symm⟩

/-- Inversion for a successful construction: the row satisfies `rowOk`, the record
is a single fresh node, and it is stored under the stripped name cell. -/
theorem build_model_ok_inv (r : Row) (m : Model) (h : build_model r = .ok m) :
    rowOk r = true ∧ modelSize m = 1 ∧ m.name = rowName r ∧
      m.count_in_device = m.amount := by
  cases hc : r.category with
  | none => simp [build_model, hc] at h
  | some cat =>
    simp only [build_model, hc] at h
    by_cases hasm : is_assembly_category cat = true
    · rw [if_pos hasm] at h
      cases hp : parse_number r.position with
      | none => rw [hp] at h; simp at h
      | some ns =>
        rw [hp] at h
        cases ha : r.amount with
        | none => rw [ha] at h; simp at h
        | some a =>
          rw [ha] at h
          cases hn : r.name with
          | none => rw [hn] at h; simp at h
          | some nm =>
            rw [hn] at h
            simp only [Except.ok.injEq] at h
            subst h
            refine ⟨?_, by simp [modelSize, forestSize],
              by simp [Model.name, Model.fields, rowName, hn],
              by simp [Model.count_in_device, Model.amount, Model.fields]⟩
            simp [rowOk, hc, hp, ha, hn, hasm, exceptOk]
    · rw [if_neg hasm] at h
      cases hp : parse_number r.position with
      | none => rw [hp] at h; simp at h
      | some ns =>
        rw [hp] at h
        cases hn : r.name with
        | none => rw [hn] at h; simp at h
        | some nm =>
          rw [hn] at h
          cases hg : DetailTypes.get_type cat with
          | error e => rw [hg] at h; simp at h
          | ok dt =>
            rw [hg] at h
            cases ha : r.amount with
            | none => rw [ha] at h; simp at h
            | some a =>
              rw [ha] at h
              simp only [Except.ok.injEq] at h
              subst h
              refine ⟨?_, by simp [modelSize],
                by simp [Model.name, Model.fields, rowName, hn],
                by simp [Model.count_in_device, Model.amount, Model.fields]⟩
              simp [rowOk, hc, hp, ha, hn, hasm, hg, exceptOk]

/-- A row satisfying `rowOk` constructs successfully. -/
theorem build_model_ok_of_rowOk (r : Row) (h : rowOk r = true) :
    ∃ m, build_model r = .ok m := by
  unfold rowOk at h
  cases hc : r.category with
  | none => rw [hc] at h; simp at h
  | some cat =>
    rw [hc] at h
    simp only [Bool.and_eq_true, Bool.or_eq_true, Option.isSome_iff_exists] at h
    obtain ⟨⟨⟨⟨ns, hp⟩, ⟨nm, hn⟩⟩, ⟨a, ha⟩⟩, hor⟩ := h
    cases hb : build_model r with
    | ok m => exact ⟨m, rfl⟩
    | error e =>
      exfalso
      simp only [build_model, hc] at hb
      by_cases hasm : is_assembly_category cat = true
      · rw [if_pos hasm, hp, ha, hn] at hb
        simp at hb
      · rcases hor with hasm' | hgt
        · exact absurd hasm' hasm
        · cases hg : DetailTypes.get_type cat with
          | error e' => rw [hg] at hgt; simp [exceptOk] at hgt
          | ok dt =>
            rw [if_neg hasm, hp, hn, hg, ha] at hb
            simp at hb

/-- A failed construction propagates its error through `collect_model`. -/
theorem collect_model_err (st : InputState) (r : Row) (e : PyErr)
    (h : build_model r = .error e) : collect_model st r = .error e := by
  simp [collect_model, h]

/-- A successful `collect_model` presupposes a successful construction. -/
theorem build_ok_of_collect_ok (st : InputState) (r : Row) (st' : InputState)
    (h : collect_model st r = .ok st') : ∃ m, build_model r = .ok m := by
  unfold collect_model at h
  cases hb : build_model r with
  | error e => rw [hb] at h; simp at h
  | ok m => exact ⟨m, rfl⟩

/-- A successful construction makes `collect_model` succeed, add exactly the record
to the forest, make its name (and nothing else) newly present in the counter, and
preserve key distinctness. -/
theorem collect_model_spec (st : InputState) (r : Row) (m : Model)
    (hb : build_model r = .ok m) :
    ∃ st', collect_model st r = .ok st' ∧
      forestSize st'.models = forestSize st.models + modelSize m ∧
      (∀ n, (dictGet st'.counter n).isSome = true ↔
        (n = m.name ∨ (dictGet st.counter n).isSome = true)) ∧
      ((st.counter.map Prod.fst).Nodup → (st'.counter.map Prod.fst).Nodup) := by
  cases hfa : find_assembly st.counter st.models m 1 with
  | mk ms' p =>
    obtain ⟨c', b⟩ := p
    cases b with
    | true =>
      obtain ⟨⟨q, hq⟩, hs⟩ := find_assembly_found_spec st.counter st.models m 1 ms' c' hfa
      obtain ⟨v, hv⟩ := counterUpdate_as_dictSet st.counter m q
      refine ⟨⟨ms', c'⟩, by simp [collect_model, hb, hfa], by simpa using hs, ?_, ?_⟩
      · intro n
        show (dictGet c' n).isSome = true ↔ _
        rw [hq, hv]
        exact isSome_dictGet_dictSet _ _ _ _
      · intro hnd
        show ((c'.map Prod.fst)).Nodup
        rw [hq, hv]
        exact nodup_keys_dictSet _ _ _ hnd
    | false =>
      refine ⟨⟨st.models ++ [m], dictSet st.counter m.name m⟩,
        by simp [collect_model, hb, hfa], ?_, ?_, ?_⟩
      · show forestSize (st.models ++ [m]) = _
        rw [forestSize_append]
        simp [forestSize]
      · intro n
        exact isSome_dictGet_dictSet _ _ _ _
      · intro hnd
        exact nodup_keys_dictSet _ _ _ hnd

/-- A successful run adds to the forest exactly one record per row satisfying
`rowOk` (after position sanitization). -/
theorem work_from_size : ∀ (rows : List Row) (st0 st : InputState),
    work_with_rows_from st0 rows = .ok st →
    forestSize st.models =
      forestSize st0.models + rows.countP (fun r => rowOk (check_row_number r)) := by
  intro rows
  induction rows with
  | nil =>
    intro st0 st h
    simp only [work_with_rows_from, Except.ok.injEq] at h
    subst h
    simp
  | cons r rest ih =>
    intro st0 st h
    rw [List.countP_cons]
    cases hok : rowOk (check_row_number r) with
    | true =>
      obtain ⟨m, hm⟩ := build_model_ok_of_rowOk _ hok
      obtain ⟨st1, hcm, hsize, _, _⟩ := collect_model_spec st0 (check_row_number r) m hm
      simp only [work_with_rows_from, hcm] at h
      have hrec := ih st1 st h
      have hone := (build_model_ok_inv _ _ hm).2.1
      simp only [hok, if_true]
      omega
    | false =>
      cases hcm : collect_model st0 (check_row_number r) with
      | ok st1 =>
        obtain ⟨m, hm⟩ := build_ok_of_collect_ok _ _ _ hcm
        have := (build_model_ok_inv _ _ hm).1
        rw [hok] at this
        exact absurd this (by simp)
      | error e =>
        simp only [work_with_rows_from, hcm] at h
        cases e with
        | incorrectRow msg =>
          have hrec := ih st0 st h
          simp only [hok, Bool.false_eq_true, if_false]
          omega
        | valueError => simp at h
        | attributeError => simp at h

/-- After a successful run of rows that all satisfy `rowOk`, a name is present in
the counter iff it is the stored name of one of the rows or was present before. -/
theorem work_from_keys : ∀ (rows : List Row) (st0 st : InputState),
    (∀ r ∈ rows, rowOk (check_row_number r) = true) →
    work_with_rows_from st0 rows = .ok st →
    ∀ n, (dictGet st.counter n).isSome = true ↔
      (n ∈ rows.map (fun r => rowName (check_row_number r)) ∨
        (dictGet st0.counter n).isSome = true) := by
  intro rows
  induction rows with
  | nil =>
    intro st0 st _ h n
    simp only [work_with_rows_from, Except.ok.injEq] at h
    subst h
    simp
  | cons r rest ih =>
    intro st0 st hall h n
    have hok : rowOk (check_row_number r) = true := hall r (by simp)
    obtain ⟨m, hm⟩ := build_model_ok_of_rowOk _ hok
    obtain ⟨st1, hcm, _, hkeys, _⟩ := collect_model_spec st0 (check_row_number r) m hm
    simp only [work_with_rows_from, hcm] at h
    have hrec := ih st1 st (fun r' hr' => hall r' (by simp [hr'])) h n
    have hname : m.name = rowName (check_row_number r) := (build_model_ok_inv _ _ hm).2.2.1
    rw [hrec, hkeys n]
    simp only [List.map_cons, List.mem_cons, hname]
    tauto

/-- The component-wise loop of `is_detail_in_assembly` checks exactly that the
parent's number is the prefix of the detail's. -/
theorem numberMatches_iff_take : ∀ (xs ys : List Int),
    numberMatches xs ys = true ↔ ys.take xs.length = xs := by
  intro xs
  induction xs with
  | nil => intro ys; simp [numberMatches]
  | cons x xs' ih =>
    intro ys
    cases ys with
    | nil => simp [numberMatches]
    | cons y ys' =>
      simp only [numberMatches, List.length_cons, List.take_succ_cons, List.cons.injEq]
      by_cases h : x = y
      · subst h; simp [ih]
      · simp only [h, ne_eq, not_false_eq_true, if_true]
        constructor
        · intro hf; exact absurd hf (by simp)
        · intro ⟨he, _⟩; exact absurd he.symm h

/-! Claim theorems. -/

/-- C6: for any two dotted paths A and B, `is_detail_in_assembly A B` (read:
B is an immediate child of A) holds iff B's length is A's length plus one and
B's first `len(A)` components equal A component-wise. -/
theorem C6_is_immediate_child_iff (A B : List Int) :
    is_detail_in_assembly A B = true ↔
      (B.length = A.length + 1 ∧ B.take A.length = A) := by
  unfold is_detail_in_assembly
  by_cases h : (B.length : Int) - (A.length : Int) = 1
  · rw [if_pos h]
    have hlen : B.length = A.length + 1 := by omega
    simp [numberMatches_iff_take, hlen]
  · rw [if_neg h]
    constructor
    · intro hf; exact absurd hf (by simp)
    · intro hand
      exfalso
      have := hand.1
      omega

/-- C2 (code behavior at the failing input): on the three-level chain the spec's
example holds (Leaf 15, Asm 3), but on the four-level chain the leaf's recorded
count-in-device is 105 = 3 * 5 * 7, not the claimed product 210 = 2 * 3 * 5 * 7
along its path — the root's multiplier 2 is dropped, because `find_assembly`
multiplies only the found parent's count_in_device (which stays equal to its own
amount in the tree) by the immediately enclosing level's count_in_device. -/
theorem C2_depth_propagation :
    counterCid (work_with_rows chain3) "Leaf" = some 15 ∧
    counterCid (work_with_rows chain3) "Asm" = some 3 ∧
    counterCid (work_with_rows chain4) "Bolt" = some 105 ∧
    (105 : Int) ≠ 2 * 3 * 5 * 7 :=
  ⟨by decide, by decide, by decide, by decide⟩

/-- C3 counterexample: two valid rows named X (amounts 2 and 4), both promoted to
top-level roots; the aggregation entry ends at 4 — the second promotion overwrote
the first snapshot — not at the claimed sum 6. -/
theorem C3_counterexample :
    counterCid (work_with_rows dupNameRows) "X" = some 4 ∧ (4 : Int) ≠ 2 + 4 :=
  ⟨by decide, by decide⟩

/-- C3 (amended): one entry per name is kept (key distinctness is preserved); a
contribution from an occurrence attached under a parent — `attach_contribution`,
the quantity `find_assembly` computes for the found parent — is added to the
existing entry's count-in-device; but an occurrence promoted to a top-level root
overwrites the entry with a fresh snapshot of the record, whose count-in-device
equals its own amount. -/
theorem C3_amended_summation (st st' : InputState) (r : Row) (m : Model)
    (hb : build_model r = .ok m)
    (hcm : collect_model st r = .ok st')
    (hkeys : (st.counter.map Prod.fst).Nodup) :
    (st'.counter.map Prod.fst).Nodup ∧
    ((find_assembly st.counter st.models m 1).2.2 = true →
      ∀ old, dictGet st.counter m.name = some old →
        ∃ c : Int, attach_contribution st.models m 1 = some c ∧
          dictGet st'.counter m.name =
            some (old.withCid (old.count_in_device + c))) ∧
    ((find_assembly st.counter st.models m 1).2.2 = false →
      dictGet st'.counter m.name = some m ∧ m.count_in_device = m.amount) := by
  simp only [collect_model, hb] at hcm
  cases hfa : find_assembly st.counter st.models m 1 with
  | mk ms' p =>
    obtain ⟨c', b⟩ := p
    cases b with
    | true =>
      rw [hfa] at hcm
      simp only [Except.ok.injEq] at hcm
      subst hcm
      obtain ⟨q, hacq, hq⟩ :=
        (find_assembly_contribution_spec st.counter st.models m 1).1 ms' c' hfa
      obtain ⟨v, hv⟩ := counterUpdate_as_dictSet st.counter m q
      refine ⟨?_, ?_, ?_⟩
      · show (c'.map Prod.fst).Nodup
        rw [hq, hv]
        exact nodup_keys_dictSet _ _ _ hkeys
      · intro _ old hold
        refine ⟨q, hacq, ?_⟩
        show dictGet c' m.name = _
        rw [hq]
        unfold counterUpdate
        rw [hold]
        exact dictGet_dictSet_self _ _ _
      · intro hfalse
        simp at hfalse
    | false =>
      rw [hfa] at hcm
      simp only [Except.ok.injEq] at hcm
      subst hcm
      refine ⟨?_, ?_, ?_⟩
      · exact nodup_keys_dictSet _ _ _ hkeys
      · intro htrue
        simp at htrue
      · intro _
        refine ⟨dictGet_dictSet_self _ _ _, ?_⟩
        exact (build_model_ok_inv r m hb).2.2.2

/-- C3 witness: in a state whose counter already holds X with count 2, attaching a
new X with amount 5 under the assembly (contribution 1 * 1 * 5 = 5) keeps one X
entry and adds 5 to its count; and the claim's own summation example — two X
leaves with amounts 2 and 4 under two assemblies with count-in-device 1 — ends
with the single X entry at 6. -/
theorem C3_amended_summation_witness :
    ((stateOf (collect_model c3st c3row)).counter.map Prod.fst).Nodup ∧
    attach_contribution c3st.models c3m 1 = some 5 ∧
    dictGet (stateOf (collect_model c3st c3row)).counter c3m.name =
      some (oldX.withCid (oldX.count_in_device + 5)) ∧
    counterCid (work_with_rows sumExampleRows) "X" = some 6 := by
  have h := C3_amended_summation c3st (stateOf (collect_model c3st c3row)) c3row c3m
    rfl rfl (by decide)
  obtain ⟨c, hc, hd⟩ := h.2.1 rfl oldX rfl
  have hc5 : c = 5 :=
    (Option.some.inj
      ((rfl : attach_contribution c3st.models c3m 1 = some 5).symm.trans hc)).symm
  subst hc5
  exact ⟨h.1, hc, hd, by decide⟩

/-- C4 counterexample: a row with position text "1.X" followed by a good row makes
the whole run abort with the uncaught `ValueError` — the good row is never
processed — while the same run without the malformed row succeeds. -/
theorem C4_counterexample :
    work_with_rows [badPosRow, goodRow] = .error .valueError ∧
    work_with_rows [goodRow] = .ok (stateOf (work_with_rows [goodRow])) :=
  ⟨rfl, rfl⟩

/-- C4 (amended): a row whose category cell is present but whose position text does
not parse into a dotted integer path makes `collect_model` raise `ValueError`,
which the per-row loop does not catch, so processing of all remaining rows of the
file is aborted (rather than the row being skipped). -/
theorem C4_amended_malformed_position_aborts (st : InputState) (r : Row)
    (rest : List Row) (cat : String)
    (hc : r.category = some cat)
    (hp : parse_number (check_row_number r).position = none) :
    collect_model st (check_row_number r) = .error .valueError ∧
    work_with_rows_from st (r :: rest) = .error .valueError := by
  have hcat : (check_row_number r).category = some cat := by simp [check_row_number, hc]
  have hb : build_model (check_row_number r) = .error .valueError := by
    simp only [build_model, hcat]
    by_cases hasm : is_assembly_category cat = true
    · rw [if_pos hasm, hp]
    · rw [if_neg hasm, hp]
  have hcoll := collect_model_err st (check_row_number r) _ hb
  refine ⟨hcoll, ?_⟩
  simp [work_with_rows_from, hcoll]

/-- C4 witness: the amended claim at the concrete malformed row. -/
theorem C4_amended_witness :
    collect_model ⟨[], []⟩ (check_row_number badPosRow) = .error .valueError ∧
    work_with_rows_from ⟨[], []⟩ (badPosRow :: [goodRow]) = .error .valueError :=
  C4_amended_malformed_position_aborts ⟨[], []⟩ badPosRow [goodRow] "детали" rfl rfl

/-- C5 counterexample: two topologically valid orders of the same rows (an assembly
A, a leaf X attached in it, a same-named root leaf X) yield different aggregation
maps: X's count is 3 in one order and 5 in the other, because the root promotion
overwrites the entry while the attachment adds to it. -/
theorem C5_counterexample :
    topologically_valid ordA = true ∧ topologically_valid ordB = true ∧
    ordA.Perm ordB ∧
    counterCid (work_with_rows ordA) "X" = some 3 ∧
    counterCid (work_with_rows ordB) "X" = some 5 ∧
    some (3 : Int) ≠ some (5 : Int) :=
  ⟨by decide, by decide, by decide, by decide, by decide, by decide⟩

/-- C5 (amended): any two orders of the same valid rows (in particular the
topologically valid ones) yield aggregation maps over the same set of part names;
the per-name totals need not agree when a record promoted to a top-level root
shares its name with another record, because promotion overwrites the entry. -/
theorem C5_amended_same_name_sets (rows1 rows2 : List Row) (hperm : rows1.Perm rows2)
    (hok : ∀ r ∈ rows1, rowOk (check_row_number r) = true)
    (st1 st2 : InputState)
    (h1 : work_with_rows rows1 = .ok st1) (h2 : work_with_rows rows2 = .ok st2)
    (n : String) :
    (dictGet st1.counter n).isSome = true ↔ (dictGet st2.counter n).isSome = true := by
  have k1 := work_from_keys rows1 ⟨[], []⟩ st1 hok h1 n
  have k2 := work_from_keys rows2 ⟨[], []⟩ st2
    (fun r hr => hok r (hperm.mem_iff.mpr hr)) h2 n
  rw [k1, k2]
  have hm := (hperm.map (fun r => rowName (check_row_number r))).mem_iff (a := n)
  constructor
  · rintro (hmem | habs)
    · exact Or.inl (hm.mp hmem)
    · exact Or.inr habs
  · rintro (hmem | habs)
    · exact Or.inl (hm.mpr hmem)
    · exact Or.inr habs

/-- C5 witness: the amended claim at a concrete two-row permutation, read at
name P. -/
theorem C5_amended_witness :
    (dictGet (stateOf (work_with_rows permRows1)).counter "P").isSome = true ↔
    (dictGet (stateOf (work_with_rows permRows2)).counter "P").isSome = true :=
  C5_amended_same_name_sets permRows1 permRows2 (by decide) (by decide)
    (stateOf (work_with_rows permRows1)) (stateOf (work_with_rows permRows2))
    rfl rfl "P"

/-- C7: after a successful run the forest holds exactly one record per valid row
(`rowOk` after sanitization counts the non-error rows); and a valid row matched by
no assembly in the forest is appended as a new top-level root — never dropped,
never an error. -/
theorem C7_promotion_and_count (rows : List Row) (st : InputState)
    (h : work_with_rows rows = .ok st) :
    forestSize st.models = rows.countP (fun r => rowOk (check_row_number r)) ∧
    (∀ (st0 : InputState) (r : Row) (m : Model),
      build_model (check_row_number r) = .ok m →
      (find_assembly st0.counter st0.models m 1).2.2 = false →
      collect_model st0 (check_row_number r) =
        .ok ⟨st0.models ++ [m], dictSet st0.counter m.name m⟩) := by
  constructor
  · have hs := work_from_size rows ⟨[], []⟩ st h
    simpa [forestSize] using hs
  · intro st0 r m hb hfa
    simp only [collect_model, hb]
    cases hfa2 : find_assembly st0.counter st0.models m 1 with
    | mk ms' p =>
      obtain ⟨c', b⟩ := p
      cases b with
      | true => rw [hfa2] at hfa; simp at hfa
      | false => rfl

/-- C7 witness: the count at a concrete run — an assembly with one child, an
unmatched leaf promoted to a root, and a skipped unknown-category row: 3 records. -/
theorem C7_witness :
    forestSize (stateOf (work_with_rows mixedRows)).models =
      mixedRows.countP (fun r => rowOk (check_row_number r)) ∧
    mixedRows.countP (fun r => rowOk (check_row_number r)) = 3 :=
  ⟨(C7_promotion_and_count mixedRows (stateOf (work_with_rows mixedRows)) rfl).1,
   by decide⟩

/-- C8 counterexample: with a material item and an assembly unit in the dict, the
absolute sheet puts "материалы" before "сборочные единицы" — the opposite of the
declaration order of the category enumeration (assembly_unit is declared before
material) — so the primary sort key is not the declaration order. -/
theorem C8_counterexample :
    ((create_absolute_sheet dEx).map (fun r => r.detail_type) =
      ["материалы", "сборочные единицы"]) ∧
    ¬ ((create_absolute_sheet dEx).Pairwise
        (fun a b => declIdxOfValue a.detail_type ≤ declIdxOfValue b.detail_type)) :=
  ⟨by decide, by decide⟩

/-- C8 (amended): the absolute view holds one row per aggregation entry (structural
fields dropped), sorted primarily by the category's textual label compared
lexicographically by code point — which for this vocabulary differs from the
declaration order — and secondarily by name; names are pairwise distinct. -/
theorem C8_amended_sort (details : Counter)
    (hnd : (details.map Prod.fst).Nodup)
    (hname : ∀ p ∈ details, Model.name p.2 = p.1) :
    List.Pairwise reportOrder (create_absolute_sheet details) ∧
    (create_absolute_sheet details).Perm
      (details.map (fun p => Model.toReportRow p.2)) ∧
    ((create_absolute_sheet details).map ReportRow.name).Nodup := by
  have hsorted : List.Pairwise reportOrder (create_absolute_sheet details) := by
    unfold create_absolute_sheet
    exact @List.sorted_insertionSort ReportRow reportOrder _ ⟨reportOrder_total⟩
      ⟨reportOrder_trans⟩ (details.map (fun p => Model.toReportRow p.2))
  have hperm : (create_absolute_sheet details).Perm
      (details.map (fun p => Model.toReportRow p.2)) := by
    unfold create_absolute_sheet
    exact List.perm_insertionSort _ _
  refine ⟨hsorted, hperm, ?_⟩
  have hmm : (details.map (fun p => Model.toReportRow p.2)).map ReportRow.name =
      details.map Prod.fst := by
    rw [List.map_map]
    apply List.map_congr_left
    intro p hp
    have := hname p hp
    simpa [Model.toReportRow, Model.name, Model.fields] using this
  have hnodup2 : ((details.map (fun p => Model.toReportRow p.2)).map ReportRow.name).Nodup := by
    rw [hmm]; exact hnd
  exact ((hperm.map ReportRow.name).nodup_iff).mpr hnodup2

/-- C8 witness: the amended claim at the concrete two-entry dict. -/
theorem C8_amended_witness :
    List.Pairwise reportOrder (create_absolute_sheet dEx) ∧
    (create_absolute_sheet dEx).Perm (dEx.map (fun p => Model.toReportRow p.2)) ∧
    ((create_absolute_sheet dEx).map ReportRow.name).Nodup :=
  C8_amended_sort dEx (by decide) (by decide)

/-- C9: when the attached record's name already has an aggregation entry, the
update is a single set of that name whose stored record is the old entry with only
its count-in-device replaced (by the old count plus the contribution); `withCid`
changes no descriptive field. -/
theorem C9_frame_only_count_updated (counter : Counter) (ms : List Model) (m : Model)
    (u : Int) (old : Model)
    (hold : dictGet counter m.name = some old)
    (hfound : (find_assembly counter ms m u).2.2 = true) :
    (∃ c : Int, (find_assembly counter ms m u).2.1 =
      dictSet counter m.name (old.withCid (old.count_in_device + c))) ∧
    (∀ q : Int, (old.withCid q).fields = { old.fields with count_in_device := q }) := by
  constructor
  · cases hfa : find_assembly counter ms m u with
    | mk ms' p =>
      obtain ⟨c', b⟩ := p
      cases b with
      | false => rw [hfa] at hfound; simp at hfound
      | true =>
        obtain ⟨⟨q, hq⟩, _⟩ := find_assembly_found_spec counter ms m u ms' c' hfa
        refine ⟨q, ?_⟩
        show c' = _
        rw [hq]
        unfold counterUpdate
        rw [hold]
  · intro q
    cases old <;> rfl

/-- C9 witness: at a concrete counter and forest; the entry for X keeps `oldX`'s
descriptive fields with only the count changed. -/
theorem C9_witness :
    ∃ c : Int, (find_assembly [("X", oldX)] [asmA] newX 1).2.1 =
      dictSet [("X", oldX)] newX.name (oldX.withCid (oldX.count_in_device + c)) :=
  (C9_frame_only_count_updated [("X", oldX)] [asmA] newX 1 oldX rfl rfl).1

/-- C10: a row whose amount cell does not parse as a float raises `ValueError`
in record construction (not an `IncorrectRow`); the per-row loop catches only
`IncorrectRow`, so the error aborts processing of all remaining rows of the file
instead of the row being skipped. -/
theorem C10_amount_error_aborts (st : InputState) (r : Row) (rest : List Row)
    (cat : String)
    (hc : r.category = some cat)
    (hp : (parse_number (check_row_number r).position).isSome = true)
    (hbranch : is_assembly_category cat = true ∨
      (r.name.isSome = true ∧ exceptOk (DetailTypes.get_type cat) = true))
    (ha : r.amount = none) :
    collect_model st (check_row_number r) = .error .valueError ∧
    (∀ msg : String, PyErr.valueError ≠ PyErr.incorrectRow msg) ∧
    work_with_rows_from st (r :: rest) = .error .valueError := by
  have hcat : (check_row_number r).category = some cat := by simp [check_row_number, hc]
  have hamt : (check_row_number r).amount = r.amount := by simp [check_row_number]
  obtain ⟨ns, hp2⟩ := Option.isSome_iff_exists.mp hp
  have hb : build_model (check_row_number r) = .error .valueError := by
    simp only [build_model, hcat]
    rcases hbranch with hasm | ⟨hn, hg⟩
    · rw [if_pos hasm, hp2, hamt, ha]
    · by_cases hasm : is_assembly_category cat = true
      · rw [if_pos hasm, hp2, hamt, ha]
      · rw [if_neg hasm, hp2]
        obtain ⟨nm, hn2⟩ := Option.isSome_iff_exists.mp hn
        have hnm : (check_row_number r).name = some nm := by simp [check_row_number, hn2]
        rw [hnm]
        cases hgt : DetailTypes.get_type cat with
        | error e => rw [hgt] at hg; simp [exceptOk] at hg
        | ok dt => rw [hamt, ha]
  have hcoll := collect_model_err st (check_row_number r) _ hb
  refine ⟨hcoll, ?_, ?_⟩
  · intro msg hmsg
    exact PyErr.noConfusion hmsg
  · simp [work_with_rows_from, hcoll]

/-- C10 witness: the concrete leaf row with an unparseable amount aborts the file. -/
theorem C10_amount_error_witness :
    collect_model ⟨[], []⟩ (check_row_number badAmountRow) = .error .valueError ∧
    work_with_rows_from ⟨[], []⟩ (badAmountRow :: [goodRow]) = .error .valueError := by
  have h := C10_amount_error_aborts ⟨[], []⟩ badAmountRow [goodRow] "детали"
    rfl rfl (Or.inr ⟨rfl, rfl⟩) rfl
  exact ⟨h.1, h.2.2⟩

/-- C1: a row with a present category is classified by the assembly synonym test
(case-insensitively): a match constructs an Assembly Unit; otherwise a Leaf Part is
constructed with its category resolved by `get_type`, an unknown category raises
`IncorrectRow` (the embedded `UnknownCategory`) and the row is skipped with
processing continuing; a blank category raises `IncorrectRow` (the embedded
`MissingCategory`) and is likewise skipped, processing continuing with the rest. -/
theorem C1_classification (st : InputState) (rest : List Row) (r : Row) (cat : String)
    (hc : r.category = some cat)
    (hp : (parse_number (check_row_number r).position).isSome = true)
    (hn : r.name.isSome = true)
    (ha : r.amount.isSome = true) :
    (is_assembly_category cat = true →
      ∃ f : Fields, build_model (check_row_number r) = .ok (.assembly f []) ∧
        f.detail_type = .assembly_unit) ∧
    (is_assembly_category cat = false →
      (∀ dt : DetailTypes, DetailTypes.get_type cat = .ok dt →
        ∃ f : Fields, build_model (check_row_number r) = .ok (.entity f) ∧
          f.detail_type = dt) ∧
      (∀ msg : String, DetailTypes.get_type cat = .error (.incorrectRow msg) →
        collect_model st (check_row_number r) = .error (.incorrectRow msg) ∧
        work_with_rows_from st (r :: rest) = work_with_rows_from st rest)) ∧
    (∀ r2 : Row, r2.category = none →
      collect_model st (check_row_number r2) =
        .error (.incorrectRow "Не указан тип детали") ∧
      work_with_rows_from st (r2 :: rest) = work_with_rows_from st rest) := by
  have hcat : (check_row_number r).category = some cat := by simp [check_row_number, hc]
  obtain ⟨ns, hp2⟩ := Option.isSome_iff_exists.mp hp
  obtain ⟨nm, hn2⟩ := Option.isSome_iff_exists.mp hn
  obtain ⟨a, ha2⟩ := Option.isSome_iff_exists.mp ha
  have hnm : (check_row_number r).name = some nm := by simp [check_row_number, hn2]
  have hamt : (check_row_number r).amount = some a := by simp [check_row_number, ha2]
  refine ⟨?_, ?_, ?_⟩
  · intro hasm
    refine ⟨⟨ns, pyStrip nm, .assembly_unit, r.code, r.work_file, r.making_type,
      r.material, r.comment, r.is_order, a, a⟩, ?_, rfl⟩
    simp only [build_model, hcat]
    rw [if_pos hasm, hp2, hamt, hnm]
    rfl
  · intro hasm
    constructor
    · intro dt hdt
      refine ⟨⟨ns, pyStrip nm, dt, r.code, r.work_file, r.making_type,
        r.material, r.comment, r.is_order, a, a⟩, ?_, rfl⟩
      simp only [build_model, hcat]
      rw [if_neg (by simp [hasm]), hp2, hnm, hdt, hamt]
      rfl
    · intro msg hmsg
      have hb : build_model (check_row_number r) = .error (.incorrectRow msg) := by
        simp only [build_model, hcat]
        rw [if_neg (by simp [hasm]), hp2, hnm, hmsg]
      have hcoll := collect_model_err st (check_row_number r) _ hb
      exact ⟨hcoll, by simp [work_with_rows_from, hcoll]⟩
  · intro r2 hr2
    have hcat2 : (check_row_number r2).category = none := by simp [check_row_number, hr2]
    have hb : build_model (check_row_number r2) =
        .error (.incorrectRow "Не указан тип детали") := by
      simp [build_model, hcat2]
    have hcoll := collect_model_err st (check_row_number r2) _ hb
    exact ⟨hcoll, by simp [work_with_rows_from, hcoll]⟩

/-- C1 witness: the capitalized leaf category "Детали" resolves to the detail
category and constructs a Leaf Part. -/
theorem C1_classification_witness :
    ∃ f : Fields, build_model (check_row_number capCatRow) = .ok (.entity f) ∧
      f.detail_type = .detail :=
  ((C1_classification ⟨[], []⟩ [] capCatRow "Детали" rfl rfl rfl rfl).2.1
    (by decide)).1 DetailTypes.detail rfl

end SpecSep
